import Mathlib

/-!
Verification development for the `azffmpeg` Azure Function
(`src/azffmpeg/__init__.py`).  The whole program is one HTTP handler
`main(req)` that validates the request, creates a temp workspace,
parses the source blob URL, downloads the blob, runs ffmpeg, and
uploads the result.  We embed the handler shallowly: the Python string
manipulation (`urllib.parse.urlparse`, `str.split`, `str.strip`,
`shlex.split`) is translated to executable Lean functions on
`List Char`, and the effectful collaborators (blob storage, the
credential, the ffmpeg child process, the filesystem) are supplied by
an `Env` of oracles; the handler's externally visible effects are
recorded in a `Trace`.
-/

/-! ### Python string primitives

`splitChar sep l` is Python's `str.split(sep)` with an explicit
separator: it never returns an empty list (`"".split(sep) == ['']`),
and adjacent separators yield empty fields. -/

def splitChar (sep : Char) : List Char → List (List Char)
  | [] => [[]]
  | c :: cs =>
    if c = sep then [] :: splitChar sep cs
    else
      match splitChar sep cs with
      | [] => [[c]]
      | g :: gs => (c :: g) :: gs

/-- Python's `str.strip(x)` for a single strip character: remove every
leading and trailing occurrence of `x`. -/
def stripChar (x : Char) (l : List Char) : List Char :=
  ((l.dropWhile (· = x)).reverse.dropWhile (· = x)).reverse

/-- Python's `sep.join(parts)` for a one-character separator. -/
def joinChar (sep : Char) (parts : List (List Char)) : List Char :=
  List.intercalate [sep] parts

/-! ### `urllib.parse.urlparse`

We model the pieces of `urlparse` that the handler reads: `.netloc`
and `.path` (plus the `scheme` for completeness).  Following CPython's
`urlsplit`: leading/trailing C0-control-or-space characters are
stripped, tab/CR/LF are removed everywhere, an optional scheme
(`alpha (alnum|+|-|.)* :`) is split off and lowercased, a netloc is
taken after a literal `//` up to the next `/`, `?` or `#`, the
fragment (after the first `#`) and the query (after the first `?` of
what remains) are dropped from the path, and `urlparse` additionally
splits `;params` off the last path segment.  A netloc containing `[`
without `]` (or vice versa) raises `ValueError` ("Invalid IPv6 URL"),
modelled as `none`.  (Content validation of a *matched* bracketed
IPv6 host is not modelled; no claim involves bracketed hosts.) -/

def controlOrSpace (c : Char) : Bool := c.toNat ≤ 32

def tabCrLf (c : Char) : Bool := c = '\t' || c = '\r' || c = '\n'

/-- The leading `_WHATWG_C0_CONTROL_OR_SPACE` lstrip plus the
`_UNSAFE_URL_BYTES_TO_REMOVE` removal that CPython's `urlsplit`
performs before parsing (only the left end is stripped; trailing
space is preserved). -/
def cleanUrl (l : List Char) : List Char :=
  (l.dropWhile controlOrSpace).filter (fun c => !tabCrLf c)

/-- CPython's `scheme_chars`: letters, digits, `+`, `-`, `.`. -/
def schemeChar (c : Char) : Bool :=
  c.isAlpha || c.isDigit || c = '+' || c = '-' || c = '.'

/-- ASCII lowercasing of one character (Python `str.lower` restricted
to ASCII; scheme characters are ASCII). -/
def lowerChar (c : Char) : Char :=
  if 65 ≤ c.toNat && c.toNat ≤ 90 then Char.ofNat (c.toNat + 32) else c

/-- Scan for the `:` ending a scheme; every character before it must
be a scheme character, otherwise there is no scheme. -/
def splitSchemeAux : List Char → Option (List Char × List Char)
  | [] => none
  | c :: cs =>
    if c = ':' then some ([], cs)
    else if schemeChar c then
      match splitSchemeAux cs with
      | some (s, rest) => some (c :: s, rest)
      | none => none
    else none

/-- Split an optional scheme off the URL: the first character must be
an ASCII letter and the characters up to the first `:` must all be
scheme characters; the scheme is lowercased (CPython:
`url[:i].lower()`). -/
def splitScheme (l : List Char) : List Char × List Char :=
  match l with
  | [] => ([], [])
  | c :: cs =>
    if c.isAlpha then
      match splitSchemeAux cs with
      | some (s, rest) => ((c :: s).map lowerChar, rest)
      | none => ([], l)
    else ([], l)

def netlocDelim (c : Char) : Bool := c = '/' || c = '?' || c = '#'

/-- CPython `_splitnetloc`: if the rest starts with `//`, the netloc
runs up to the next `/`, `?` or `#`. -/
def splitNetloc (l : List Char) : List Char × List Char :=
  match l with
  | '/' :: '/' :: rest =>
    (rest.takeWhile (fun c => !netlocDelim c), rest.dropWhile (fun c => !netlocDelim c))
  | _ => ([], l)

/-- Split at the first occurrence of `x` (the pair Python's
`url[:i], url[i+1:]` when `i = url.find(x)` succeeds; `(l, [])` when
`x` is absent). -/
def splitAtFirst (x : Char) (l : List Char) : List Char × List Char :=
  (l.takeWhile (· ≠ x), (l.dropWhile (· ≠ x)).drop 1)

/-- CPython `_splitparams`, called only when `;` occurs in the path:
the params are split at the first `;` of the *last* path segment (the
first `;` overall when the path has no `/`). -/
def splitParams (p : List Char) : List Char × List Char :=
  let lastSeg := (p.reverse.takeWhile (· ≠ '/')).reverse
  if p.contains '/' then
    if lastSeg.contains ';' then
      (p.take (p.length - lastSeg.length) ++ lastSeg.takeWhile (· ≠ ';'),
       (lastSeg.dropWhile (· ≠ ';')).drop 1)
    else (p, [])
  else splitAtFirst ';' p

/-- The components of `urlparse` that the handler reads. -/
structure UrlParts where
  scheme : List Char
  netloc : List Char
  path : List Char
deriving DecidableEq, Repr

/-- `urllib.parse.uses_params`: `urlparse` splits `;params` off the
path only for these schemes. -/
def usesParams : List (List Char) :=
  ["".data, "ftp".data, "hdl".data, "prospero".data, "http".data, "imap".data,
   "https".data, "shttp".data, "rtsp".data, "rtsps".data, "rtspu".data,
   "sip".data, "sips".data, "mms".data, "sftp".data, "tel".data]

/-- `urllib.parse.urlparse`, restricted to the fields the handler
uses; `none` models a raised `ValueError` ("Invalid IPv6 URL").  The
NFKC `_checknetloc` validation of non-ASCII netlocs is not modelled
(every claim is settled on ASCII URLs). -/
def urlparse (input : List Char) : Option UrlParts :=
  let u0 := cleanUrl input
  let sp := splitScheme u0
  let nl := splitNetloc sp.2
  if nl.1.contains '[' != nl.1.contains ']' then none
  else
    let afterFrag := nl.2.takeWhile (· ≠ '#')
    let path0 := afterFrag.takeWhile (· ≠ '?')
    let path1 :=
      if usesParams.contains sp.1 && path0.contains ';' then (splitParams path0).1
      else path0
    some ⟨sp.1, nl.1, path1⟩

/-! ### The locator parsing of `main` (lines 53-67 and 151-153)

Source side (lines 53-67): account = `parsed_url.netloc.split('.')[0]`,
then `path_parts = parsed_url.path.strip('/').split('/')`; fewer than
two parts is the 400 "Invalid blob URL format" exit, else container =
`path_parts[0]` and blob name = `'/'.join(path_parts[1:])`.

Destination side (lines 151-153): account as above and container =
`path.strip('/').split('/')[0]`, with no length check. -/

structure StorageLocator where
  account : List Char
  container : List Char
  objectPath : List Char
deriving DecidableEq, Repr

inductive SourceParse
  | ok (loc : StorageLocator)
  | badFormat
  | raised
deriving DecidableEq, Repr

def parseSource (url : List Char) : SourceParse :=
  match urlparse url with
  | none => .raised
  | some p =>
    let account := (splitChar '.' p.netloc).headD []
    let segs := splitChar '/' (stripChar '/' p.path)
    if segs.isEmpty || segs.length < 2 then .badFormat
    else .ok ⟨account, segs.headD [], joinChar '/' (segs.drop 1)⟩

def parseDest (url : List Char) : Option (List Char × List Char) :=
  match urlparse url with
  | none => none
  | some p =>
    some ((splitChar '.' p.netloc).headD [],
          (splitChar '/' (stripChar '/' p.path)).headD [])

/-- Line 74 / line 158: the handler rebuilds the URL it actually
contacts from the parsed pieces, with a fixed scheme and domain. -/
def mkBlobUrl (account container objectPath : List Char) : String :=
  "https://" ++ String.mk account ++ ".blob.core.windows.net/" ++
    String.mk container ++ "/" ++ String.mk objectPath

/-- Line 158: the destination blob URL always ends in the fixed object
name `output.mp4`. -/
def mkUploadUrl (account container : List Char) : String :=
  "https://" ++ String.mk account ++ ".blob.core.windows.net/" ++
    String.mk container ++ "/output.mp4"

/-! ### `shlex.split` (lines 118-128)

`shlex.split(s)` with POSIX rules and `whitespace_split=True`:
whitespace separates tokens; single or double quotes group characters
into one token with the quotes stripped; a backslash escapes the next
character outside quotes and, inside double quotes only, escapes `"`
and `\` (any other backslash inside double quotes is kept literally);
an unclosed quote raises "No closing quotation" and a trailing
backslash raises "No escaped character"; a quoted empty string is a
token. -/

def shlexWs (c : Char) : Bool := c = ' ' || c = '\t' || c = '\r' || c = '\n'

def isQuoteChar (c : Char) : Bool := c = '\x27' || c = '"'

/-- Where an escape was entered from: a word (`escapedstate == 'a'`)
or a double-quoted group (`escapedstate == '"'`). -/
inductive EscFrom
  | word
  | dquote
deriving DecidableEq, Repr

/-- The lexer state of `shlex.read_token`. -/
inductive SMode
  | ws
  | word
  | inQuote (q : Char)
  | inEsc (src : EscFrom)
deriving DecidableEq, Repr

/-- One pass of `shlex` over the input.  `tok` is the current token
(reversed), `quoted` records whether the current token saw a quote
(so that a quoted empty string is still emitted), `acc` collects the
finished tokens (reversed). -/
def shlexAux : List Char → SMode → List Char → Bool → List (List Char) →
    Except String (List (List Char))
  | [], mode, tok, quoted, acc =>
    match mode with
    | .ws => .ok acc.reverse
    | .word =>
      if tok.isEmpty && !quoted then .ok acc.reverse
      else .ok ((tok.reverse :: acc)).reverse
    | .inQuote _ => .error "No closing quotation"
    | .inEsc _ => .error "No escaped character"
  | c :: cs, mode, tok, quoted, acc =>
    match mode with
    | .ws =>
      if shlexWs c then shlexAux cs .ws [] false acc
      else if c = '\\' then shlexAux cs (.inEsc .word) [] false acc
      else if isQuoteChar c then shlexAux cs (.inQuote c) [] false acc
      else shlexAux cs .word [c] false acc
    | .word =>
      if shlexWs c then
        if tok.isEmpty && !quoted then shlexAux cs .ws [] false acc
        else shlexAux cs .ws [] false (tok.reverse :: acc)
      else if isQuoteChar c then shlexAux cs (.inQuote c) tok quoted acc
      else if c = '\\' then shlexAux cs (.inEsc .word) tok quoted acc
      else shlexAux cs .word (c :: tok) quoted acc
    | .inQuote q =>
      if c = q then shlexAux cs .word tok true acc
      else if q = '"' && c = '\\' then shlexAux cs (.inEsc .dquote) tok true acc
      else shlexAux cs (.inQuote q) (c :: tok) true acc
    | .inEsc src =>
      match src with
      | .word => shlexAux cs .word (c :: tok) quoted acc
      | .dquote =>
        if c ≠ '"' && c ≠ '\\' then shlexAux cs (.inQuote '"') (c :: '\\' :: tok) quoted acc
        else shlexAux cs (.inQuote '"') (c :: tok) quoted acc

def shlexSplit (s : List Char) : Except String (List (List Char)) :=
  shlexAux s .ws [] false []

/-- Lines 118-128: `cmd_parts = [ffmpeg_path, '-i', temp_input_path]`,
extended with `shlex.split(ffmpeg_command)` when `ffmpeg_command` is
truthy, then `temp_output_path` is appended.  `.error` models the
`ValueError` a malformed instruction raises inside the ffmpeg `try`
block. -/
def buildCmd (ffmpegPath tin cmdStr tout : String) : Except String (List String) :=
  match (if cmdStr = "" then Except.ok [] else shlexSplit cmdStr.data) with
  | .error e => .error e
  | .ok toks => .ok (([ffmpegPath, "-i", tin] ++ toks.map String.mk) ++ [tout])

/-! ### The request body (lines 24-38)

`req.get_json()` either yields a JSON value or raises `ValueError`
(no body / malformed body), modelled as `Option Json`.  The handler
reads each field as `req_body.get(k) if req_body else
req.params.get(k)`: the query parameters are consulted exactly when
the body is Python-falsy, and `.get` on a truthy non-object raises
`AttributeError` (an unhandled crash, modelled as `none` at the
`main` level). -/

inductive Json where
  | null
  | bool (b : Bool)
  | num (n : Int)
  | str (s : String)
  | arr (elems : List Json)
  | obj (fields : List (String × Json))

/-- Python truthiness of a decoded JSON value. -/
def Json.truthy : Json → Bool
  | .null => false
  | .bool b => b
  | .num n => n != 0
  | .str s => s != ""
  | .arr l => !l.isEmpty
  | .obj l => !l.isEmpty

def jsonStr? : Json → Option String
  | .str s => some s
  | _ => none

/-- `req_body.get(k) if req_body else req.params.get(k)` for one
field.  The outer `Option` is the crash level: `none` models the
`AttributeError` of `.get` on a truthy non-object body; the inner
`Option Json` is the field value (`none` = absent). -/
def getField (body : Option Json) (params : List (String × String))
    (k : String) : Option (Option Json) :=
  match body with
  | none => some ((params.lookup k).map Json.str)
  | some j =>
    if j.truthy then
      match j with
      | .obj fields => some (fields.lookup k)
      | _ => none
    else some ((params.lookup k).map Json.str)

/-! ### Pipeline orchestration (the whole of `main`)

The effectful collaborators are oracles in `Env`; determinism of the
oracles models "the same request under the same conditions".  The
`Trace` records the externally visible effects the claims speak
about: whether the temp workspace was created and whether it is gone
when `main` returns (`shutil.rmtree(..., ignore_errors=True)` runs
only in the `finally` of the upload stage's `try`, lines 168-174),
which storage URLs were contacted, what was uploaded (with the
`overwrite=True` flag of line 162), and which of the ten exit points
produced the response. -/

/-- The outcome of `download_blob().readall()` written to
`temp_input_path` (lines 79-89): success, `ResourceNotFoundError`, or
any other exception. -/
inductive DlResult
  | found (bytes : List Nat)
  | notFound
  | failed (msg : String)

/-- The outcome of `subprocess.run(cmd_parts, ...)` (lines 133-137):
a completed process with its exit code, its captured stderr text and
the bytes it left in `temp_output_path` (`none` when no output file
was produced), or a launch failure (`OSError` etc.). -/
inductive RunResult
  | completed (returncode : Int) (stderrText : String) (outBytes : Option (List Nat))
  | launchFailed (msg : String)

structure Env where
  /-- The unique directory name `tempfile.mkdtemp(dir='/tmp')` returns. -/
  tempDir : String
  /-- Whether `ManagedIdentityCredential()` (line 71) constructs. -/
  credsOk : Bool
  /-- Blob download keyed by the exact blob URL contacted. -/
  download : String → DlResult
  /-- The first existing candidate of lines 97-109, if any. -/
  ffmpegPath : Option String
  run : List String → RunResult
  /-- `upload_blob` outcome keyed by the exact blob URL: `none` is
  success, `some msg` an exception. -/
  uploadErr : String → Option String
  /-- Whether `shutil.rmtree(temp_dir, ignore_errors=True)` actually
  removes the directory (`ignore_errors` swallows failures). -/
  rmtreeWorks : Bool

/-- The ten exit points of `main`. -/
inductive Stage
  | missingFields
  | invalidSourceUrl
  | storageAccessError
  | blobNotFound
  | downloadError
  | ffmpegMissing
  | ffmpegExecError
  | ffmpegNonzero
  | uploadError
  | ok
deriving DecidableEq, Repr

structure Resp where
  status : Nat
  body : String
deriving DecidableEq, Repr

structure Trace where
  tempCreated : Bool
  tempRemoved : Bool
  downloadUrl : Option String
  uploadUrl : Option String
  uploadedBlob : Option (String × List Nat)
  overwriteFlag : Option Bool
  stage : Stage
deriving DecidableEq, Repr

structure Req where
  body : Option Json
  params : List (String × String)

/-- Line 35-38's 400 response. -/
def respMissing : Resp :=
  ⟨400, "Please pass inputBlobUrl, outputContainerName, and ffmpegCommand in the request body"⟩

/-- Line 64's 400 response. -/
def respBadUrl : Resp :=
  ⟨400, "Invalid blob URL format. URL must include container name and blob path."⟩

/-- The trace of a validation failure: no temp directory was created
(line 41 runs after the 400 return of line 35). -/
def traceNone : Trace :=
  ⟨false, false, none, none, none, none, .missingFields⟩

/-- The trace right after `tempfile.mkdtemp` (line 41). -/
def traceStart : Trace :=
  ⟨true, false, none, none, none, none, .missingFields⟩

/-- Lines 149-174: parse the destination container URL, create the
output blob client, open `temp_output_path` and upload with
`overwrite=True`.  Any exception becomes the 500 "Video processing
completed but upload failed" response. -/
def uploadBody (env : Env) (joc : Json) (outBytes : Option (List Nat))
    (tr : Trace) : Resp × Trace :=
  match jsonStr? joc with
  | none =>
    (⟨500, "Video processing completed but upload failed: expected string or bytes-like object"⟩,
     { tr with stage := .uploadError })
  | some destUrl =>
    match parseDest destUrl.data with
    | none =>
      (⟨500, "Video processing completed but upload failed: Invalid IPv6 URL"⟩,
       { tr with stage := .uploadError })
    | some ac =>
      let upUrl := mkUploadUrl ac.1 ac.2
      let tr1 := { tr with uploadUrl := some upUrl }
      match outBytes with
      | none =>
        (⟨500, "Video processing completed but upload failed: No such file or directory"⟩,
         { tr1 with stage := .uploadError })
      | some bs =>
        match env.uploadErr upUrl with
        | some msg =>
          (⟨500, "Video processing completed but upload failed: " ++ msg⟩,
           { tr1 with overwriteFlag := some true, stage := .uploadError })
        | none =>
          (⟨200, "Video processed successfully"⟩,
           { tr1 with uploadedBlob := some (upUrl, bs), overwriteFlag := some true,
                      stage := .ok })

/-- The `finally` of lines 168-174: `rmtree` runs on every exit of the
upload stage (and before the success return of line 176), best-effort. -/
def uploadFinally (env : Env) (r : Resp × Trace) : Resp × Trace :=
  (r.1, { r.2 with tempRemoved := env.rmtreeWorks })

/-- Lines 94-146: resolve the ffmpeg binary, build the argument list
with `shlex.split`, run it; non-zero exit returns the stderr-carrying
500 of line 141, any exception the 500 of line 146. -/
def ffmpegStage (env : Env) (joc jfc : Json) (tin tout : String)
    (tr : Trace) : Resp × Trace :=
  match env.ffmpegPath with
  | none => (⟨500, "FFmpeg binary not found"⟩, { tr with stage := .ffmpegMissing })
  | some fp =>
    match jsonStr? jfc with
    | none =>
      (⟨500, "Error executing FFmpeg: expected string or bytes-like object"⟩,
       { tr with stage := .ffmpegExecError })
    | some cmdStr =>
      match buildCmd fp tin cmdStr tout with
      | .error msg =>
        (⟨500, "Error executing FFmpeg: " ++ msg⟩, { tr with stage := .ffmpegExecError })
      | .ok argv =>
        match env.run argv with
        | .launchFailed msg =>
          (⟨500, "Error executing FFmpeg: " ++ msg⟩, { tr with stage := .ffmpegExecError })
        | .completed rc errText outB =>
          if rc ≠ 0 then
            (⟨500, "FFmpeg error: " ++ errText⟩, { tr with stage := .ffmpegNonzero })
          else uploadFinally env (uploadBody env joc outB tr)

/-- Lines 51-92: parse the source blob URL, construct the credential,
rebuild the download URL from the parsed pieces (line 74) and download
into the workspace.  Every failure here returns without reaching the
upload stage's `finally`. -/
def sourceStage (env : Env) (jib joc jfc : Json) (tin tout : String)
    (tr : Trace) : Resp × Trace :=
  match jsonStr? jib with
  | none =>
    (⟨500, "Unexpected error accessing blob storage: expected string or bytes-like object"⟩,
     { tr with stage := .storageAccessError })
  | some inputUrl =>
    match parseSource inputUrl.data with
    | .raised =>
      (⟨500, "Unexpected error accessing blob storage: Invalid IPv6 URL"⟩,
       { tr with stage := .storageAccessError })
    | .badFormat => (respBadUrl, { tr with stage := .invalidSourceUrl })
    | .ok loc =>
      if env.credsOk then
        let dlUrl := mkBlobUrl loc.account loc.container loc.objectPath
        let tr1 := { tr with downloadUrl := some dlUrl }
        match env.download dlUrl with
        | .notFound =>
          (⟨404, "Input blob not found at " ++ String.mk loc.container ++ "/" ++
                   String.mk loc.objectPath⟩,
           { tr1 with stage := .blobNotFound })
        | .failed msg =>
          (⟨500, "Error downloading input file: " ++ msg⟩, { tr1 with stage := .downloadError })
        | .found _ => ffmpegStage env joc jfc tin tout tr1
      else
        (⟨500, "Unexpected error accessing blob storage: credential error"⟩,
         { tr with stage := .storageAccessError })

/-- Lines 40-49 then onwards: the workspace paths and the stages that
follow validation. -/
def mainValidated (env : Env) (jib joc jfc : Json) : Resp × Trace :=
  let tin := env.tempDir ++ "/input.mp4"
  let tout := env.tempDir ++ "/output.mp4"
  sourceStage env jib joc jfc tin tout traceStart

/-- The whole handler (the Python `main`; `main` is a reserved name
in Lean).  `none` models an unhandled exception escaping the handler
(only possible at lines 30-32, `.get` on a truthy non-object body). -/
def mainHandler (env : Env) (req : Req) : Option (Resp × Trace) :=
  match getField req.body req.params "inputBlobUrl",
        getField req.body req.params "outputContainerName",
        getField req.body req.params "ffmpegCommand" with
  | some ibu, some ocn, some fc =>
    match ibu, ocn, fc with
    | some jib, some joc, some jfc =>
      if jib.truthy && joc.truthy && jfc.truthy then some (mainValidated env jib joc jfc)
      else some (respMissing, traceNone)
    | _, _, _ => some (respMissing, traceNone)
  | _, _, _ => none

/-! ### Destination-container state

For the idempotence claim, the destination container is a map from
blob URLs to contents and `upload_blob(..., overwrite=True)` replaces
the entry.  `applyRun` is the effect of one handler invocation on that
state. -/

def Store := String → Option (List Nat)

def applyRun (env : Env) (req : Req) (s : Store) : Store :=
  match mainHandler env req with
  | some r =>
    match r.2.uploadedBlob with
    | some ub => fun x => if x = ub.1 then some ub.2 else s x
    | none => s
  | none => s

/-! ### Helper lemmas -/

theorem jsonStr?_eq_some {j : Json} {s : String} (h : jsonStr? j = some s) :
    j = .str s := by
  cases j <;> simp [jsonStr?] at h <;> simp [h]

/-- If one field read succeeds (does not crash), they all do: the
crash depends only on the body. -/
theorem getField_isSome (b : Option Json) (p : List (String × String)) (k k2 : String)
    (h : (getField b p k).isSome) : (getField b p k2).isSome := by
  cases b with
  | none => simp [getField]
  | some j =>
    cases j with
    | bool v => cases v <;> simp_all [getField, Json.truthy]
    | num n =>
      by_cases hn : n = 0 <;> simp_all [getField, Json.truthy]
    | str s =>
      by_cases hs : s = "" <;> simp_all [getField, Json.truthy]
    | arr l => cases l <;> simp_all [getField, Json.truthy]
    | obj l => cases l <;> simp_all [getField, Json.truthy]
    | null => simp_all [getField, Json.truthy]

/-- A required field that is absent or the empty string. -/
def fieldMissing (v : Option (Option Json)) : Prop :=
  v = some none ∨ v = some (some (.str ""))

/-- Any missing or empty required field short-circuits to the 400
"Please pass ..." response. -/
theorem handler_400_of_fieldMissing (env : Env) (req : Req)
    (h : fieldMissing (getField req.body req.params "inputBlobUrl") ∨
         fieldMissing (getField req.body req.params "outputContainerName") ∨
         fieldMissing (getField req.body req.params "ffmpegCommand")) :
    mainHandler env req = some (respMissing, traceNone) := by
  have hsome : ∀ k2 : String, (getField req.body req.params k2).isSome := by
    intro k2
    rcases h with (h | h) | (h | h) | (h | h) <;>
      exact getField_isSome _ _ _ k2 (by rw [h]; rfl)
  obtain ⟨v1, h1⟩ := Option.isSome_iff_exists.mp (hsome "inputBlobUrl")
  obtain ⟨v2, h2⟩ := Option.isSome_iff_exists.mp (hsome "outputContainerName")
  obtain ⟨v3, h3⟩ := Option.isSome_iff_exists.mp (hsome "ffmpegCommand")
  have hmiss : v1 = none ∨ v1 = some (.str "") ∨ v2 = none ∨ v2 = some (.str "") ∨
      v3 = none ∨ v3 = some (.str "") := by
    rcases h with (h | h) | (h | h) | (h | h)
    · rw [h1] at h; exact Or.inl (Option.some_injective _ h)
    · rw [h1] at h; exact Or.inr (Or.inl (Option.some_injective _ h))
    · rw [h2] at h; exact Or.inr (Or.inr (Or.inl (Option.some_injective _ h)))
    · rw [h2] at h; exact Or.inr (Or.inr (Or.inr (Or.inl (Option.some_injective _ h))))
    · rw [h3] at h; exact Or.inr (Or.inr (Or.inr (Or.inr (Or.inl (Option.some_injective _ h)))))
    · rw [h3] at h; exact Or.inr (Or.inr (Or.inr (Or.inr (Or.inr (Option.some_injective _ h)))))
  simp only [mainHandler, h1, h2, h3]
  rcases v1 with _ | j1
  · simp
  rcases v2 with _ | j2
  · simp
  rcases v3 with _ | j3
  · simp
  have hfalse : j1.truthy = false ∨ j2.truthy = false ∨ j3.truthy = false := by
    rcases hmiss with h | h | h | h | h | h
    · exact absurd h (by simp)
    · exact Or.inl (by rw [Option.some_injective _ h]; rfl)
    · exact absurd h (by simp)
    · exact Or.inr (Or.inl (by rw [Option.some_injective _ h]; rfl))
    · exact absurd h (by simp)
    · exact Or.inr (Or.inr (by rw [Option.some_injective _ h]; rfl))
  rcases hfalse with ht | ht | ht <;> simp [ht]

/-- Claim C3: whenever any of the three required fields
(`inputBlobUrl`, `outputContainerName`, `ffmpegCommand`) resolves to
absent or to the empty string, the handler returns the 400
"Please pass ..." response, regardless of which field is missing (and
no workspace is even created). -/
theorem missing_field_yields_400 (env : Env) (req : Req)
    (h : fieldMissing (getField req.body req.params "inputBlobUrl") ∨
         fieldMissing (getField req.body req.params "outputContainerName") ∨
         fieldMissing (getField req.body req.params "ffmpegCommand")) :
    mainHandler env req = some (respMissing, traceNone) :=
  handler_400_of_fieldMissing env req h

/-- Witness for C3: a request whose body is a non-empty JSON object
without `inputBlobUrl`. -/
theorem missing_field_yields_400_witness :
    fieldMissing (getField (some (Json.obj [("outputContainerName", Json.str "u")]))
      [] "inputBlobUrl") ∧
    mainHandler
      { tempDir := "/tmp/tmpw", credsOk := true, download := fun _ => .notFound,
        ffmpegPath := none, run := fun _ => .launchFailed "no", uploadErr := fun _ => some "no",
        rmtreeWorks := true }
      ⟨some (Json.obj [("outputContainerName", Json.str "u")]), []⟩ =
      some (respMissing, traceNone) :=
  ⟨Or.inl rfl,
   missing_field_yields_400 _ _ (Or.inl (Or.inl rfl))⟩

/-- A happy-path environment used to witness the conditional theorems. -/
def envHappy : Env :=
  { tempDir := "/tmp/tmpw1", credsOk := true, download := fun _ => .found [1, 2],
    ffmpegPath := some "/usr/bin/ffmpeg", run := fun _ => .completed 0 "" (some [3, 4]),
    uploadErr := fun _ => none, rmtreeWorks := true }

/-- A request carrying the three fields in the JSON body. -/
def reqHappy : Req :=
  { body := some (.obj [("inputBlobUrl", .str "https://a.b/c/o"),
                        ("outputContainerName", .str "https://d.b/e"),
                        ("ffmpegCommand", .str "-y")]),
    params := [] }

/-- Claim C7: when the source blob does not exist
(`ResourceNotFoundError` on download), the handler returns the 404
"Input blob not found" response, and nothing is uploaded (the upload
stage is never reached: no upload URL is built and no blob is
written). -/
theorem source_not_found_404 (env : Env) (req : Req) (su : String) (jd jc : Json)
    (loc : StorageLocator)
    (h1 : getField req.body req.params "inputBlobUrl" = some (some (.str su)))
    (h2 : getField req.body req.params "outputContainerName" = some (some jd))
    (h3 : getField req.body req.params "ffmpegCommand" = some (some jc))
    (ht1 : su ≠ "") (ht2 : jd.truthy = true) (ht3 : jc.truthy = true)
    (hp : parseSource su.data = .ok loc)
    (hc : env.credsOk = true)
    (hd : env.download (mkBlobUrl loc.account loc.container loc.objectPath) = .notFound) :
    mainHandler env req =
      some (⟨404, "Input blob not found at " ++ String.mk loc.container ++ "/" ++
                    String.mk loc.objectPath⟩,
            ⟨true, false, some (mkBlobUrl loc.account loc.container loc.objectPath),
             none, none, none, .blobNotFound⟩) := by
  have hsu : (Json.str su).truthy = true := by simp [Json.truthy, bne_iff_ne, ht1]
  simp [mainHandler, h1, h2, h3, hsu, ht2, ht3,
        mainValidated, sourceStage, jsonStr?, hp, hc, hd, traceStart]

/-- Witness for C7. -/
theorem source_not_found_404_witness :
    mainHandler { envHappy with download := fun _ => .notFound } reqHappy =
      some (⟨404, "Input blob not found at " ++ String.mk "c".data ++ "/" ++
                    String.mk "o".data⟩,
            ⟨true, false, some (mkBlobUrl "a".data "c".data "o".data),
             none, none, none, .blobNotFound⟩) :=
  source_not_found_404 _ _ "https://a.b/c/o" (.str "https://d.b/e") (.str "-y")
    ⟨"a".data, "c".data, "o".data⟩ rfl rfl rfl (by decide) rfl rfl (by rfl) rfl rfl

/-- Claim C6: when the ffmpeg child process exits with a non-zero
code, the handler returns a 500 response whose body is
`"FFmpeg error: " ++ stderr` (so the diagnostic output is contained
in the message), and nothing is uploaded: no upload URL is built and
no blob is written. -/
theorem ffmpeg_nonzero_500 (env : Env) (req : Req) (su : String) (jd : Json)
    (cmd fp : String) (loc : StorageLocator) (argv : List String) (rc : Int)
    (errText : String) (outB : Option (List Nat)) (bs : List Nat)
    (h1 : getField req.body req.params "inputBlobUrl" = some (some (.str su)))
    (h2 : getField req.body req.params "outputContainerName" = some (some jd))
    (h3 : getField req.body req.params "ffmpegCommand" = some (some (.str cmd)))
    (ht1 : su ≠ "") (ht2 : jd.truthy = true) (ht3 : cmd ≠ "")
    (hp : parseSource su.data = .ok loc)
    (hc : env.credsOk = true)
    (hd : env.download (mkBlobUrl loc.account loc.container loc.objectPath) = .found bs)
    (hf : env.ffmpegPath = some fp)
    (hb : buildCmd fp (env.tempDir ++ "/input.mp4") cmd
            (env.tempDir ++ "/output.mp4") = .ok argv)
    (hr : env.run argv = .completed rc errText outB)
    (hrc : rc ≠ 0) :
    mainHandler env req =
      some (⟨500, "FFmpeg error: " ++ errText⟩,
            ⟨true, false, some (mkBlobUrl loc.account loc.container loc.objectPath),
             none, none, none, .ffmpegNonzero⟩) := by
  have hsu : (Json.str su).truthy = true := by simp [Json.truthy, bne_iff_ne, ht1]
  have hcm : (Json.str cmd).truthy = true := by simp [Json.truthy, bne_iff_ne, ht3]
  simp [mainHandler, h1, h2, h3, hsu, ht2, hcm,
        mainValidated, sourceStage, ffmpegStage, jsonStr?, hp, hc, hd, hf, hb, hr, hrc,
        traceStart]

/-- Witness for C6. -/
theorem ffmpeg_nonzero_500_witness :
    mainHandler { envHappy with run := fun _ => .completed 1 "boom" none } reqHappy =
      some (⟨500, "FFmpeg error: " ++ "boom"⟩,
            ⟨true, false, some (mkBlobUrl "a".data "c".data "o".data),
             none, none, none, .ffmpegNonzero⟩) :=
  ffmpeg_nonzero_500 _ _ "https://a.b/c/o" (.str "https://d.b/e") "-y" "/usr/bin/ffmpeg"
    ⟨"a".data, "c".data, "o".data⟩
    ["/usr/bin/ffmpeg", "-i", "/tmp/tmpw1/input.mp4", "-y", "/tmp/tmpw1/output.mp4"]
    1 "boom" none [1, 2] rfl rfl rfl (by decide) rfl (by decide) (by rfl) rfl rfl rfl
    (by rfl) rfl (by decide)

/-- A request whose source URL has too few path segments (parse fails
at line 62 after the workspace was created at line 41). -/
def reqBadUrl : Req :=
  { body := some (.obj [("inputBlobUrl", .str "x"),
                        ("outputContainerName", .str "https://d.b/e"),
                        ("ffmpegCommand", .str "-y")]),
    params := [] }

/-- Counterexample to claim C1 as stated: on the 400 "Invalid blob
URL format" exit the workspace directory was created but `rmtree`
never ran, so the directory still exists when the handler returns
(even though removal would have succeeded, `rmtreeWorks = true`).
The `try/finally` holding `shutil.rmtree` (lines 168-174) only wraps
the upload stage; the returns at lines 64, 86, 89, 92, 113, 141 and
146 bypass it. -/
theorem cleanup_claim_counterexample :
    mainHandler envHappy reqBadUrl =
      some (respBadUrl, ⟨true, false, none, none, none, none, .invalidSourceUrl⟩) ∧
    envHappy.rmtreeWorks = true := by
  constructor
  · rfl
  · rfl

/-- Claim C1, amended: the workspace is removed (when removal
succeeds) exactly on the exits that reach the upload stage's
`finally` — the success exit and the "upload failed" exit; on every
other exit after validation the workspace directory was created and
is still present when the handler returns. -/
theorem cleanup_only_at_upload_stage (env : Env) (req : Req) (out : Resp × Trace)
    (h : mainHandler env req = some out) :
    (out.2.stage = .uploadError ∨ out.2.stage = .ok →
        out.2.tempRemoved = env.rmtreeWorks) ∧
    (out.2.stage ≠ .uploadError ∧ out.2.stage ≠ .ok → out.2.tempRemoved = false) ∧
    (out.2.stage ≠ .missingFields → out.2.tempCreated = true) := by
  simp only [mainHandler, mainValidated, sourceStage, ffmpegStage, uploadFinally,
    uploadBody, respMissing, traceNone, traceStart] at h
  repeat' split at h
  all_goals first
    | exact Option.noConfusion h
    | (injection h with h
       rw [← h]
       simp)

/-- The trace of the happy-path run of `envHappy`/`reqHappy`. -/
def trHappyOk : Trace :=
  ⟨true, true, some "https://a.blob.core.windows.net/c/o",
   some "https://d.blob.core.windows.net/e/output.mp4",
   some ("https://d.blob.core.windows.net/e/output.mp4", [3, 4]), some true, .ok⟩

/-- Witness for the amended C1, at a successful run. -/
theorem cleanup_only_at_upload_stage_witness :
    (trHappyOk.stage = .uploadError ∨ trHappyOk.stage = .ok →
        trHappyOk.tempRemoved = envHappy.rmtreeWorks) ∧
    (trHappyOk.stage ≠ .uploadError ∧ trHappyOk.stage ≠ .ok →
        trHappyOk.tempRemoved = false) ∧
    (trHappyOk.stage ≠ .missingFields → trHappyOk.tempCreated = true) :=
  cleanup_only_at_upload_stage envHappy reqHappy
    (⟨200, "Video processed successfully"⟩, trHappyOk) (by rfl)

/-- Counterexample to claim C9 as stated: a body of `0` is present,
is valid JSON, and is not an empty JSON object, yet the query
parameter is consulted and supplies the field (`if req_body` tests
Python truthiness, not object-ness). -/
theorem query_precedence_counterexample :
    getField (some (Json.num 0)) [("inputBlobUrl", "v")] "inputBlobUrl" =
      some (some (Json.str "v")) ∧
    Json.num 0 ≠ Json.obj [] ∧ (some (Json.num 0) : Option Json) ≠ none :=
  ⟨rfl, fun h => Json.noConfusion h, fun h => Option.noConfusion h⟩

/-- Claim C9, amended: the query parameters are consulted exactly when
the parsed body is Python-falsy (absent, invalid JSON, or any falsy
JSON value — the empty object, but also `null`, `false`, `0`, `""`,
`[]`); when the body is a non-empty JSON object the parameters are
never consulted, so a field missing from the body is treated as
absent even when supplied as a query parameter, and a request whose
non-empty object body lacks `inputBlobUrl` gets the 400 "Please
pass ..." response whatever the query string says. -/
theorem query_fallback_iff_falsy (j : Json) (params : List (String × String))
    (k k2 : String) (fs : List (String × Json)) (env : Env)
    (ps2 : List (String × String))
    (hft : j.truthy = false) (hne : fs ≠ [])
    (hlk : fs.lookup "inputBlobUrl" = none) :
    getField (some j) params k = some ((params.lookup k).map Json.str) ∧
    getField (some (Json.obj fs)) ps2 k2 = some (fs.lookup k2) ∧
    mainHandler env ⟨some (Json.obj fs), ps2⟩ = some (respMissing, traceNone) := by
  have hobj : ∀ k3 : String, getField (some (Json.obj fs)) ps2 k3 = some (fs.lookup k3) := by
    intro k3
    cases fs with
    | nil => exact absurd rfl hne
    | cons a as => simp [getField, Json.truthy]
  refine ⟨by simp [getField, hft], hobj k2, ?_⟩
  exact handler_400_of_fieldMissing env _ (Or.inl (Or.inl (by rw [hobj, hlk])))

/-- Witness for the amended C9. -/
theorem query_fallback_iff_falsy_witness :
    getField (some (Json.num 0)) [("inputBlobUrl", "v")] "inputBlobUrl" =
      some (([("inputBlobUrl", "v")].lookup "inputBlobUrl").map Json.str) ∧
    getField (some (Json.obj [("ffmpegCommand", Json.str "-y")]))
        [("inputBlobUrl", "v")] "inputBlobUrl" =
      some ([("ffmpegCommand", Json.str "-y")].lookup "inputBlobUrl") ∧
    mainHandler envHappy
        ⟨some (Json.obj [("ffmpegCommand", Json.str "-y")]), [("inputBlobUrl", "v")]⟩ =
      some (respMissing, traceNone) :=
  query_fallback_iff_falsy (Json.num 0) [("inputBlobUrl", "v")] "inputBlobUrl"
    "inputBlobUrl" [("ffmpegCommand", Json.str "-y")] envHappy
    [("inputBlobUrl", "v")] rfl (by simp) rfl

/-- Claim C4: when the source URL parses but its path has fewer than
two segments after stripping slashes, the handler returns the 400
"Invalid blob URL format" client-error response (not a 500). -/
theorem short_path_yields_400 (env : Env) (req : Req) (su : String) (jd jc : Json)
    (p : UrlParts)
    (h1 : getField req.body req.params "inputBlobUrl" = some (some (.str su)))
    (h2 : getField req.body req.params "outputContainerName" = some (some jd))
    (h3 : getField req.body req.params "ffmpegCommand" = some (some jc))
    (ht1 : su ≠ "") (ht2 : jd.truthy = true) (ht3 : jc.truthy = true)
    (hu : urlparse su.data = some p)
    (hlen : (splitChar '/' (stripChar '/' p.path)).length < 2) :
    mainHandler env req =
      some (respBadUrl, ⟨true, false, none, none, none, none, .invalidSourceUrl⟩) := by
  have hsu : (Json.str su).truthy = true := by simp [Json.truthy, bne_iff_ne, ht1]
  have hp : parseSource su.data = .badFormat := by
    simp [parseSource, hu, hlen]
  simp [mainHandler, h1, h2, h3, hsu, ht2, ht3,
        mainValidated, sourceStage, jsonStr?, hp, traceStart]

/-- Witness for C4: the source URL `"x"` has a single path segment. -/
theorem short_path_yields_400_witness :
    mainHandler envHappy reqBadUrl =
      some (respBadUrl, ⟨true, false, none, none, none, none, .invalidSourceUrl⟩) :=
  short_path_yields_400 envHappy reqBadUrl "x" (.str "https://d.b/e") (.str "-y")
    ⟨[], [], "x".data⟩ rfl rfl rfl (by decide) rfl rfl (by rfl) (by decide)

/-- Claim C5: for every binary path, input path, output path and
instruction whose shell-word-splitting succeeds, the built argument
vector is exactly `[binaryPath, "-i", inputPath]` followed by the
split tokens followed by the output path; and the instruction
`-vf "scale=1280:720"` splits into exactly the two tokens `-vf` and
`scale=1280:720` (quotes stripped). -/
theorem build_cmd_tokens (fp tin tout cmd : String) (toks : List (List Char))
    (h : shlexSplit cmd.data = .ok toks) :
    buildCmd fp tin cmd tout =
      .ok (([fp, "-i", tin] ++ toks.map String.mk) ++ [tout]) ∧
    shlexSplit "-vf \"scale=1280:720\"".data =
      .ok ["-vf".data, "scale=1280:720".data] := by
  constructor
  · by_cases hc : cmd = ""
    · subst hc
      have h0 : shlexSplit ("" : String).data = .ok ([] : List (List Char)) := rfl
      rw [h0] at h
      injection h with h
      simp [buildCmd, ← h]
    · simp [buildCmd, hc, h]
  · rfl

/-- Witness for C5, at the instruction named by the claim. -/
theorem build_cmd_tokens_witness :
    buildCmd "/usr/bin/ffmpeg" "/tmp/tmpw1/input.mp4" "-vf \"scale=1280:720\""
        "/tmp/tmpw1/output.mp4" =
      .ok ((["/usr/bin/ffmpeg", "-i", "/tmp/tmpw1/input.mp4"] ++
            ["-vf".data, "scale=1280:720".data].map String.mk) ++
           ["/tmp/tmpw1/output.mp4"]) ∧
    shlexSplit "-vf \"scale=1280:720\"".data =
      .ok ["-vf".data, "scale=1280:720".data] :=
  build_cmd_tokens "/usr/bin/ffmpeg" "/tmp/tmpw1/input.mp4" "/tmp/tmpw1/output.mp4"
    "-vf \"scale=1280:720\"" ["-vf".data, "scale=1280:720".data] (by rfl)

/-- Claim C8: a successful run uploads the transcoder's output under
the fixed object name `output.mp4` (the upload URL ends in
`/output.mp4` and is built from only the account label and the first
path segment of the destination URL — two destination URLs with the
same netloc and the same first stripped path segment resolve to the
same target, so any extra object-path component is ignored), the
upload passes `overwrite=True`, and applying the same successful
request twice leaves the destination store exactly as applying it
once. -/
theorem upload_fixed_name_idempotent (env : Env) (req : Req)
    (su du cmd fp errText : String) (loc : StorageLocator)
    (argv : List String) (bs outBs : List Nat) (acct cont : List Char)
    (u1 u2 : List Char) (p1 p2 : UrlParts) (s : Store)
    (h1 : getField req.body req.params "inputBlobUrl" = some (some (.str su)))
    (h2 : getField req.body req.params "outputContainerName" = some (some (.str du)))
    (h3 : getField req.body req.params "ffmpegCommand" = some (some (.str cmd)))
    (ht1 : su ≠ "") (ht2 : du ≠ "") (ht3 : cmd ≠ "")
    (hp : parseSource su.data = .ok loc)
    (hc : env.credsOk = true)
    (hd : env.download (mkBlobUrl loc.account loc.container loc.objectPath) = .found bs)
    (hf : env.ffmpegPath = some fp)
    (hb : buildCmd fp (env.tempDir ++ "/input.mp4") cmd
            (env.tempDir ++ "/output.mp4") = .ok argv)
    (hr : env.run argv = .completed 0 errText (some outBs))
    (hpd : parseDest du.data = some (acct, cont))
    (hup : env.uploadErr (mkUploadUrl acct cont) = none)
    (hu1 : urlparse u1 = some p1) (hu2 : urlparse u2 = some p2)
    (hnl : p1.netloc = p2.netloc)
    (hseg : (splitChar '/' (stripChar '/' p1.path)).headD [] =
            (splitChar '/' (stripChar '/' p2.path)).headD []) :
    mainHandler env req =
      some (⟨200, "Video processed successfully"⟩,
            ⟨true, env.rmtreeWorks,
             some (mkBlobUrl loc.account loc.container loc.objectPath),
             some (mkUploadUrl acct cont), some (mkUploadUrl acct cont, outBs),
             some true, .ok⟩) ∧
    (∃ pre : String, mkUploadUrl acct cont = pre ++ "/output.mp4") ∧
    parseDest u1 = parseDest u2 ∧
    applyRun env req (applyRun env req s) = applyRun env req s := by
  have hsu : (Json.str su).truthy = true := by simp [Json.truthy, bne_iff_ne, ht1]
  have hdu : (Json.str du).truthy = true := by simp [Json.truthy, bne_iff_ne, ht2]
  have hcm : (Json.str cmd).truthy = true := by simp [Json.truthy, bne_iff_ne, ht3]
  have hmain : mainHandler env req =
      some (⟨200, "Video processed successfully"⟩,
            ⟨true, env.rmtreeWorks,
             some (mkBlobUrl loc.account loc.container loc.objectPath),
             some (mkUploadUrl acct cont), some (mkUploadUrl acct cont, outBs),
             some true, .ok⟩) := by
    simp [mainHandler, h1, h2, h3, hsu, hdu, hcm, mainValidated, sourceStage,
          ffmpegStage, uploadBody, uploadFinally, jsonStr?, hp, hc, hd, hf, hb, hr,
          hpd, hup, traceStart]
  refine ⟨hmain, ⟨"https://" ++ String.mk acct ++ ".blob.core.windows.net/" ++
      String.mk cont, by simp [mkUploadUrl, String.append_assoc]⟩, ?_, ?_⟩
  · simp only [parseDest, hu1, hu2, hnl, hseg]
  · funext x
    simp only [applyRun, hmain]
    by_cases hx : x = mkUploadUrl acct cont <;> simp [hx]

/-- Witness for C8. -/
theorem upload_fixed_name_idempotent_witness :
    mainHandler envHappy reqHappy =
      some (⟨200, "Video processed successfully"⟩,
            ⟨true, envHappy.rmtreeWorks,
             some (mkBlobUrl "a".data "c".data "o".data),
             some (mkUploadUrl "d".data "e".data),
             some (mkUploadUrl "d".data "e".data, [3, 4]), some true, .ok⟩) ∧
    (∃ pre : String, mkUploadUrl "d".data "e".data = pre ++ "/output.mp4") ∧
    parseDest "https://d.b/e".data = parseDest "https://d.b/e/sub/dir".data ∧
    applyRun envHappy reqHappy (applyRun envHappy reqHappy (fun _ => none)) =
      applyRun envHappy reqHappy (fun _ => none) :=
  upload_fixed_name_idempotent envHappy reqHappy "https://a.b/c/o" "https://d.b/e"
    "-y" "/usr/bin/ffmpeg" "" ⟨"a".data, "c".data, "o".data⟩
    ["/usr/bin/ffmpeg", "-i", "/tmp/tmpw1/input.mp4", "-y", "/tmp/tmpw1/output.mp4"]
    [1, 2] [3, 4] "d".data "e".data
    "https://d.b/e".data "https://d.b/e/sub/dir".data
    ⟨"https".data, "d.b".data, "/e".data⟩ ⟨"https".data, "d.b".data, "/e/sub/dir".data⟩
    (fun _ => none)
    rfl rfl rfl (by decide) (by decide) (by decide) (by rfl) rfl rfl rfl (by rfl) rfl
    (by rfl) rfl (by rfl) (by rfl) rfl (by rfl)

/-! ### Inversion lemmas for the contacted storage URLs -/

theorem jsonStr?_eq_some_iff (j : Json) (s : String) :
    jsonStr? j = some s ↔ j = .str s := by
  cases j <;> simp [jsonStr?]

/-- `splitChar` always begins with the run before the first separator. -/
theorem splitChar_eq_takeWhile_cons (sep : Char) (l : List Char) :
    ∃ gs, splitChar sep l = l.takeWhile (· ≠ sep) :: gs := by
  induction l with
  | nil => exact ⟨[], rfl⟩
  | cons c cs ih =>
    by_cases hc : c = sep
    · refine ⟨splitChar sep cs, ?_⟩
      simp [splitChar, hc]
    · obtain ⟨gs, hgs⟩ := ih
      exact ⟨gs, by simp [splitChar, hc, hgs]⟩

theorem splitChar_headD (sep : Char) (l : List Char) :
    (splitChar sep l).headD [] = l.takeWhile (· ≠ sep) := by
  obtain ⟨gs, h⟩ := splitChar_eq_takeWhile_cons sep l
  rw [h]
  rfl

/-- The account of a parsed source locator is the first dot-label of
the URL's netloc. -/
theorem parseSource_account (u : List Char) (pp : UrlParts) (loc : StorageLocator)
    (hu : urlparse u = some pp) (hl : parseSource u = .ok loc) :
    loc.account = pp.netloc.takeWhile (· ≠ '.') := by
  simp only [parseSource, hu] at hl
  split at hl
  · exact SourceParse.noConfusion hl
  · injection hl with hl
    rw [← hl]
    simpa using splitChar_headD '.' pp.netloc

/-- `ffmpegStage` never changes the recorded download URL. -/
theorem ffmpegStage_downloadUrl (env : Env) (joc jfc : Json) (tin tout : String)
    (tr : Trace) :
    (ffmpegStage env joc jfc tin tout tr).2.downloadUrl = tr.downloadUrl := by
  unfold ffmpegStage uploadFinally uploadBody
  repeat' split
  all_goals try simp
  all_goals try split
  all_goals simp

/-- Any upload URL recorded by `ffmpegStage` is the rebuilt
`mkUploadUrl` of the parsed destination. -/
theorem ffmpegStage_uploadUrl (env : Env) (joc jfc : Json) (tin tout : String)
    (tr : Trace) (hnone : tr.uploadUrl = none) :
    ∀ y, (ffmpegStage env joc jfc tin tout tr).2.uploadUrl = some y →
      ∃ du ac, jsonStr? joc = some du ∧ parseDest du.data = some ac ∧
        y = mkUploadUrl ac.1 ac.2 := by
  unfold ffmpegStage uploadFinally uploadBody
  repeat' split
  all_goals intro y hy
  all_goals simp [hnone] at hy
  all_goals try split at hy
  all_goals try simp at hy
  all_goals
    (refine ⟨?_, ?_, ?ha, ?hb, ?hc⟩
     case ha => assumption
     case hb => assumption
     case hc => first | exact hy | exact hy.symm)

/-- Any download URL recorded by `sourceStage` is the rebuilt
`mkBlobUrl` of the parsed source locator. -/
theorem sourceStage_downloadUrl (env : Env) (jib joc jfc : Json) (tin tout : String)
    (tr : Trace) (hnone : tr.downloadUrl = none) :
    ∀ x, (sourceStage env jib joc jfc tin tout tr).2.downloadUrl = some x →
      ∃ su loc, jsonStr? jib = some su ∧ parseSource su.data = .ok loc ∧
        x = mkBlobUrl loc.account loc.container loc.objectPath := by
  unfold sourceStage
  repeat' split
  all_goals intro x hx
  all_goals try simp [hnone] at hx
  all_goals try split at hx
  all_goals try rw [ffmpegStage_downloadUrl] at hx
  all_goals try simp [hnone] at hx
  all_goals
    (refine ⟨?_, ?_, ?ha, ?hb, ?hc⟩
     case ha => assumption
     case hb => assumption
     case hc => first | exact hx | exact hx.symm)

/-- Any upload URL recorded by `sourceStage` is the rebuilt
`mkUploadUrl` of the parsed destination. -/
theorem sourceStage_uploadUrl (env : Env) (jib joc jfc : Json) (tin tout : String)
    (tr : Trace) (hnone : tr.uploadUrl = none) :
    ∀ y, (sourceStage env jib joc jfc tin tout tr).2.uploadUrl = some y →
      ∃ du ac, jsonStr? joc = some du ∧ parseDest du.data = some ac ∧
        y = mkUploadUrl ac.1 ac.2 := by
  unfold sourceStage
  repeat' split
  all_goals intro y hy
  all_goals try simp [hnone] at hy
  all_goals try split at hy
  all_goals try simp [hnone] at hy
  all_goals
    exact ffmpegStage_uploadUrl env joc jfc tin tout _ (by simp [hnone]) y hy

/-- Claim C10: every storage URL the handler actually contacts is
rebuilt as `https://{account}.blob.core.windows.net/...` from the
parsed pieces of the supplied URL: the download contact is
`mkBlobUrl` of the parsed source locator, the upload contact is
`mkUploadUrl` of the parsed destination, and the account used is
exactly the first dot-label of the supplied URL's netloc (the scheme
and the rest of the host never reach the rebuilt URL). -/
theorem contact_urls_rebuilt (env : Env) (req : Req) (out : Resp × Trace)
    (h : mainHandler env req = some out) :
    (∀ x, out.2.downloadUrl = some x →
       ∃ su loc, getField req.body req.params "inputBlobUrl" =
           some (some (Json.str su)) ∧
         parseSource su.data = .ok loc ∧
         x = mkBlobUrl loc.account loc.container loc.objectPath) ∧
    (∀ y, out.2.uploadUrl = some y →
       ∃ du ac, getField req.body req.params "outputContainerName" =
           some (some (Json.str du)) ∧
         parseDest du.data = some ac ∧ y = mkUploadUrl ac.1 ac.2) ∧
    (∀ u pp loc2, urlparse u = some pp → parseSource u = .ok loc2 →
       loc2.account = pp.netloc.takeWhile (· ≠ '.')) := by
  rw [mainHandler] at h
  rcases hg1 : getField req.body req.params "inputBlobUrl" with _ | ibu <;>
    rw [hg1] at h
  · exact absurd h (by simp)
  rcases hg2 : getField req.body req.params "outputContainerName" with _ | ocn <;>
    rw [hg2] at h
  · exact absurd h (by simp)
  rcases hg3 : getField req.body req.params "ffmpegCommand" with _ | fc <;>
    rw [hg3] at h
  · exact absurd h (by simp)
  rcases ibu with _ | jib
  · injection h with h
    rw [← h]
    exact ⟨by simp [traceNone], by simp [traceNone], parseSource_account⟩
  rcases ocn with _ | joc
  · injection h with h
    rw [← h]
    exact ⟨by simp [traceNone], by simp [traceNone], parseSource_account⟩
  rcases fc with _ | jfc
  · injection h with h
    rw [← h]
    exact ⟨by simp [traceNone], by simp [traceNone], parseSource_account⟩
  by_cases htr : (jib.truthy && joc.truthy && jfc.truthy) = true
  · simp only [htr, if_true] at h
    injection h with h
    rw [← h]
    refine ⟨?_, ?_, parseSource_account⟩
    · intro x hx
      simp only [mainValidated] at hx
      obtain ⟨su, loc, hj, hp, hxe⟩ :=
        sourceStage_downloadUrl env jib joc jfc _ _ traceStart rfl x hx
      exact ⟨su, loc, by simp [hg1, jsonStr?_eq_some hj], hp, hxe⟩
    · intro y hy
      simp only [mainValidated] at hy
      obtain ⟨du, ac, hj, hp, hye⟩ :=
        sourceStage_uploadUrl env jib joc jfc _ _ traceStart rfl y hy
      exact ⟨du, ac, by simp [hg2, jsonStr?_eq_some hj], hp, hye⟩
  · simp only [htr, if_false, Bool.false_eq_true] at h
    injection h with h
    rw [← h]
    exact ⟨by simp [traceNone], by simp [traceNone], parseSource_account⟩

/-- Witness for C10, at a run that contacts both endpoints. -/
theorem contact_urls_rebuilt_witness :
    (∀ x, trHappyOk.downloadUrl = some x →
       ∃ su loc, getField reqHappy.body reqHappy.params "inputBlobUrl" =
           some (some (Json.str su)) ∧
         parseSource su.data = .ok loc ∧
         x = mkBlobUrl loc.account loc.container loc.objectPath) ∧
    (∀ y, trHappyOk.uploadUrl = some y →
       ∃ du ac, getField reqHappy.body reqHappy.params "outputContainerName" =
           some (some (Json.str du)) ∧
         parseDest du.data = some ac ∧ y = mkUploadUrl ac.1 ac.2) ∧
    (∀ u pp loc2, urlparse u = some pp → parseSource u = .ok loc2 →
       loc2.account = pp.netloc.takeWhile (· ≠ '.')) :=
  contact_urls_rebuilt envHappy reqHappy
    (⟨200, "Video processed successfully"⟩, trHappyOk) (by rfl)

/-! ### Case-variance of the host (claim C2)

The handler reads `parsed_url.netloc`, which `urlparse` does *not*
lowercase (only the scheme is lowercased), so the account component
preserves the case of the URL's host.  We prove a characterization of
`urlparse` on well-formed `scheme://host/path` URLs and derive how the
parsed locator varies with the case of the host. -/

theorem dropWhile_eq_self_of_all (p : Char → Bool) (l : List Char)
    (h : ∀ c ∈ l, p c = false) : l.dropWhile p = l := by
  cases l with
  | nil => rfl
  | cons a as => simp [List.dropWhile, h a (by simp)]

theorem filter_eq_self_of_all (p : Char → Bool) (l : List Char)
    (h : ∀ c ∈ l, p c = true) : l.filter p = l := by
  induction l with
  | nil => rfl
  | cons a as ih =>
    simp only [List.filter, h a (by simp)]
    rw [ih (fun c hc => h c (by simp [hc]))]

theorem takeWhile_eq_self_of_all (p : Char → Bool) (l : List Char)
    (h : ∀ c ∈ l, p c = true) : l.takeWhile p = l := by
  induction l with
  | nil => rfl
  | cons a as ih =>
    simp only [List.takeWhile, h a (by simp)]
    rw [ih (fun c hc => h c (by simp [hc]))]

theorem takeWhile_append_of_all (p : Char → Bool) (xs ys : List Char)
    (h : ∀ c ∈ xs, p c = true) :
    (xs ++ ys).takeWhile p = xs ++ ys.takeWhile p := by
  induction xs with
  | nil => rfl
  | cons a as ih =>
    simp only [List.cons_append, List.takeWhile, h a (by simp), List.append_eq]
    rw [ih (fun c hc => h c (by simp [hc]))]

theorem dropWhile_append_of_all (p : Char → Bool) (xs ys : List Char)
    (h : ∀ c ∈ xs, p c = true) :
    (xs ++ ys).dropWhile p = ys.dropWhile p := by
  induction xs with
  | nil => rfl
  | cons a as ih =>
    simp only [List.cons_append, List.dropWhile, h a (by simp), List.append_eq]
    rw [ih (fun c hc => h c (by simp [hc]))]

theorem contains_eq_false_of_all (x : Char) (l : List Char)
    (h : ∀ c ∈ l, c ≠ x) : l.contains x = false := by
  induction l with
  | nil => rfl
  | cons a as ih =>
    have ha := h a (by simp)
    simp only [List.contains_cons]
    rw [ih (fun c hc => h c (by simp [hc]))]
    simp [bne_iff_ne, Ne.symm ha]

/-- A URL assembled from its components: `scheme://host/path`. -/
def mkUrl (scheme host path : List Char) : List Char :=
  scheme ++ ':' :: '/' :: '/' :: (host ++ path)

/-- `splitSchemeAux` recovers the scheme characters up to the `:`. -/
theorem splitSchemeAux_append (srest rest : List Char)
    (h : ∀ c ∈ srest, schemeChar c = true) :
    splitSchemeAux (srest ++ ':' :: rest) = some (srest, rest) := by
  induction srest with
  | nil => simp [splitSchemeAux]
  | cons a as ih =>
    have ha := h a (by simp)
    have hne : a ≠ ':' := by
      intro hc
      rw [hc] at ha
      exact absurd ha (by decide)
    simp only [List.cons_append, splitSchemeAux, if_neg hne, ha, if_true, List.append_eq]
    rw [ih (fun c hc => h c (by simp [hc]))]

/-- Characterization of the modelled `urlparse` on a well-formed
`scheme://host/path` URL: the scheme is recovered lowercased, the
netloc is exactly the host (case preserved!), and the path is exactly
the path. -/
theorem urlparse_build (s0 : Char) (srest host path : List Char)
    (hs0 : s0.isAlpha = true)
    (hsc : ∀ c ∈ srest, schemeChar c = true)
    (hclean : ∀ c ∈ mkUrl (s0 :: srest) host path, 32 < c.toNat)
    (hh1 : ∀ c ∈ host, netlocDelim c = false)
    (hh2 : host.contains '[' = false) (hh3 : host.contains ']' = false)
    (hp1 : ∀ c ∈ path, c ≠ '#' ∧ c ≠ '?' ∧ c ≠ ';')
    (hp0 : path.headD '/' = '/') :
    urlparse (mkUrl (s0 :: srest) host path) =
      some ⟨(s0 :: srest).map lowerChar, host, path⟩ := by
  have hcu : cleanUrl (mkUrl (s0 :: srest) host path) = mkUrl (s0 :: srest) host path := by
    unfold cleanUrl
    rw [dropWhile_eq_self_of_all _ _ (fun c hc => by
      have := hclean c hc
      simp [controlOrSpace]
      omega)]
    exact filter_eq_self_of_all _ _ (fun c hc => by
      have h32 := hclean c hc
      have h1 : c ≠ '\t' := by intro hh; rw [hh] at h32; exact absurd h32 (by decide)
      have h2 : c ≠ '\r' := by intro hh; rw [hh] at h32; exact absurd h32 (by decide)
      have h3 : c ≠ '\n' := by intro hh; rw [hh] at h32; exact absurd h32 (by decide)
      simp [tabCrLf, h1, h2, h3])
  have hsch : splitScheme (mkUrl (s0 :: srest) host path) =
      ((s0 :: srest).map lowerChar, '/' :: '/' :: (host ++ path)) := by
    have : mkUrl (s0 :: srest) host path =
        s0 :: (srest ++ ':' :: ('/' :: '/' :: (host ++ path))) := by
      simp [mkUrl]
    rw [this]
    simp only [splitScheme, hs0, if_true]
    rw [splitSchemeAux_append _ _ hsc]
  have hnetloc : splitNetloc ('/' :: '/' :: (host ++ path)) = (host, path) := by
    have htw : (host ++ path).takeWhile (fun c => !netlocDelim c) = host := by
      rw [takeWhile_append_of_all _ _ _ (fun c hc => by simp [hh1 c hc])]
      cases path with
      | nil => simp
      | cons a t =>
        have : a = '/' := by simpa using hp0
        simp [List.takeWhile, this, netlocDelim]
    have hdw : (host ++ path).dropWhile (fun c => !netlocDelim c) = path := by
      rw [dropWhile_append_of_all _ _ _ (fun c hc => by simp [hh1 c hc])]
      cases path with
      | nil => rfl
      | cons a t =>
        have : a = '/' := by simpa using hp0
        simp [List.dropWhile, this, netlocDelim]
    simp [splitNetloc, htw, hdw]
  have hfrag : path.takeWhile (· ≠ '#') = path :=
    takeWhile_eq_self_of_all _ _ (fun c hc => by simp [(hp1 c hc).1])
  have hquery : path.takeWhile (· ≠ '?') = path :=
    takeWhile_eq_self_of_all _ _ (fun c hc => by simp [(hp1 c hc).2.1])
  have hsemi : path.contains ';' = false :=
    contains_eq_false_of_all _ _ (fun c hc => (hp1 c hc).2.2)
  unfold urlparse
  simp only [hcu, hsch, hnetloc, hh2, hh3, hfrag, hquery, hsemi, Bool.and_false,
    bne_self_eq_false, Bool.false_eq_true, if_false, ite_false]

/-- `parseSource` on a well-formed `scheme://host/path` URL with at
least two path segments: the account is the first dot-label of the
host exactly as written, and container/object path depend only on the
path. -/
theorem parseSource_build (s0 : Char) (srest host path : List Char)
    (hs0 : s0.isAlpha = true)
    (hsc : ∀ c ∈ srest, schemeChar c = true)
    (hclean : ∀ c ∈ mkUrl (s0 :: srest) host path, 32 < c.toNat)
    (hh1 : ∀ c ∈ host, netlocDelim c = false)
    (hh2 : host.contains '[' = false) (hh3 : host.contains ']' = false)
    (hp1 : ∀ c ∈ path, c ≠ '#' ∧ c ≠ '?' ∧ c ≠ ';')
    (hp0 : path.headD '/' = '/')
    (hseg : 2 ≤ (splitChar '/' (stripChar '/' path)).length) :
    parseSource (mkUrl (s0 :: srest) host path) =
      .ok ⟨host.takeWhile (· ≠ '.'),
           (splitChar '/' (stripChar '/' path)).headD [],
           joinChar '/' ((splitChar '/' (stripChar '/' path)).drop 1)⟩ := by
  have hu := urlparse_build s0 srest host path hs0 hsc hclean hh1 hh2 hh3 hp1 hp0
  have hemp : (splitChar '/' (stripChar '/' path)).isEmpty = false := by
    cases hsp : splitChar '/' (stripChar '/' path) with
    | nil => rw [hsp] at hseg; simp at hseg
    | cons a as => rfl
  have hlt : ¬ (splitChar '/' (stripChar '/' path)).length < 2 := by omega
  have hcond : decide ((splitChar '/' (stripChar '/' path)).length < 2) = false := by
    simpa using hlt
  simp only [parseSource, hu, hemp, hcond, Bool.false_or, Bool.false_eq_true, if_false,
    ite_false, splitChar_headD]

/-- `c` is an ASCII uppercase letter. -/
def upperAscii (c : Char) : Bool := 65 ≤ c.toNat && c.toNat ≤ 90

/-- Two characters are equal up to ASCII letter case. -/
def caseEqChar (a b : Char) : Bool :=
  a = b || (upperAscii a && b.toNat == a.toNat + 32) ||
    (upperAscii b && a.toNat == b.toNat + 32)

/-- Two strings are equal up to ASCII letter case, position by
position. -/
def caseEqList : List Char → List Char → Bool
  | [], [] => true
  | a :: as, b :: bs => caseEqChar a b && caseEqList as bs
  | _, _ => false

/-- Case-equivalent characters agree on being the dot separator. -/
theorem caseEqChar_dot (a b : Char) (h : caseEqChar a b = true) :
    a = '.' ↔ b = '.' := by
  have hdot : ('.' : Char).toNat = 46 := by decide
  simp only [caseEqChar, Bool.or_eq_true, Bool.and_eq_true, decide_eq_true_eq,
    beq_iff_eq, upperAscii] at h
  rcases h with (h | ⟨h1, h2⟩) | ⟨h1, h2⟩
  · rw [h]
  · constructor
    · intro ha
      rw [ha, hdot] at h1
      exact absurd h1.1 (by decide)
    · intro hb
      rw [hb, hdot] at h2
      omega
  · constructor
    · intro ha
      rw [ha, hdot] at h2
      omega
    · intro hb
      rw [hb, hdot] at h1
      exact absurd h1.1 (by decide)

/-- Case-equivalence is preserved by taking the first dot-label. -/
theorem caseEqList_takeWhile_dot (h1 h2 : List Char)
    (h : caseEqList h1 h2 = true) :
    caseEqList (h1.takeWhile (· ≠ '.')) (h2.takeWhile (· ≠ '.')) = true := by
  induction h1 generalizing h2 with
  | nil =>
    cases h2 with
    | nil => rfl
    | cons b bs => exact absurd h (by simp [caseEqList])
  | cons a as ih =>
    cases h2 with
    | nil => exact absurd h (by simp [caseEqList])
    | cons b bs =>
      simp only [caseEqList, Bool.and_eq_true] at h
      obtain ⟨hab, hrest⟩ := h
      by_cases ha : a = '.'
      · have hb : b = '.' := (caseEqChar_dot a b hab).mp ha
        simp [List.takeWhile, ha, hb, caseEqList]
      · have hb : b ≠ '.' := fun hc => ha ((caseEqChar_dot a b hab).mpr hc)
        rw [show List.takeWhile (· ≠ '.') (a :: as) =
              a :: List.takeWhile (· ≠ '.') as from by simp [List.takeWhile, ha],
            show List.takeWhile (· ≠ '.') (b :: bs) =
              b :: List.takeWhile (· ≠ '.') bs from by simp [List.takeWhile, hb]]
        simp only [caseEqList, Bool.and_eq_true]
        exact ⟨hab, ih bs hrest⟩

/-- Counterexample to claim C2 as stated: the same locator URL parsed
with an uppercase host and with a lowercase host yields *different*
triples — the account preserves the host's case (`urlparse` does not
lowercase the netloc, and line 56 takes `netloc.split('.')[0]`
verbatim), so only container and object path agree. -/
theorem host_case_counterexample :
    parseSource "https://ACME.example.net/c/o".data =
      .ok ⟨"ACME".data, "c".data, "o".data⟩ ∧
    parseSource "https://acme.example.net/c/o".data =
      .ok ⟨"acme".data, "c".data, "o".data⟩ ∧
    caseEqList "ACME.example.net".data "acme.example.net".data = true ∧
    StorageLocator.mk "ACME".data "c".data "o".data ≠
      ⟨"acme".data, "c".data, "o".data⟩ := by
  refine ⟨by decide, by decide, by decide, by decide⟩

/-- Claim C2, amended: for a well-formed locator URL with at least two
path segments, parsing with any ASCII-case variant of the host yields
the same container and the same object path, and an account that is
the first dot-label of the host *as written* — equal to the other
variant's account only up to letter case. -/
theorem host_case_amended (s0 : Char) (srest host1 host2 path : List Char)
    (hs0 : s0.isAlpha = true)
    (hsc : ∀ c ∈ srest, schemeChar c = true)
    (hclean1 : ∀ c ∈ mkUrl (s0 :: srest) host1 path, 32 < c.toNat)
    (hclean2 : ∀ c ∈ mkUrl (s0 :: srest) host2 path, 32 < c.toNat)
    (hh11 : ∀ c ∈ host1, netlocDelim c = false)
    (hh12 : host1.contains '[' = false) (hh13 : host1.contains ']' = false)
    (hh21 : ∀ c ∈ host2, netlocDelim c = false)
    (hh22 : host2.contains '[' = false) (hh23 : host2.contains ']' = false)
    (hp1 : ∀ c ∈ path, c ≠ '#' ∧ c ≠ '?' ∧ c ≠ ';')
    (hp0 : path.headD '/' = '/')
    (hcase : caseEqList host1 host2 = true)
    (hseg : 2 ≤ (splitChar '/' (stripChar '/' path)).length) :
    ∃ l1 l2, parseSource (mkUrl (s0 :: srest) host1 path) = .ok l1 ∧
      parseSource (mkUrl (s0 :: srest) host2 path) = .ok l2 ∧
      l1.container = l2.container ∧ l1.objectPath = l2.objectPath ∧
      caseEqList l1.account l2.account = true :=
  ⟨_, _,
   parseSource_build s0 srest host1 path hs0 hsc hclean1 hh11 hh12 hh13 hp1 hp0 hseg,
   parseSource_build s0 srest host2 path hs0 hsc hclean2 hh21 hh22 hh23 hp1 hp0 hseg,
   rfl, rfl, caseEqList_takeWhile_dot host1 host2 hcase⟩

/-- Witness for the amended C2, at the hosts of the counterexample. -/
theorem host_case_amended_witness :
    ∃ l1 l2,
      parseSource (mkUrl ('h' :: "ttps".data) "ACME.example.net".data "/c/o".data) =
        .ok l1 ∧
      parseSource (mkUrl ('h' :: "ttps".data) "acme.example.net".data "/c/o".data) =
        .ok l2 ∧
      l1.container = l2.container ∧ l1.objectPath = l2.objectPath ∧
      caseEqList l1.account l2.account = true :=
  host_case_amended 'h' "ttps".data "ACME.example.net".data "acme.example.net".data
    "/c/o".data (by decide) (by decide) (by decide) (by decide) (by decide) (by decide)
    (by decide) (by decide) (by decide) (by decide) (by decide) (by decide) (by decide)
    (by decide)
